import Mathlib

/-!
# Verification of the `wd` webhook daemon core

Shallow embedding of the Go sources of `reddec/wd` (runners.go, queue.go,
limiters.go, wehbook.go, async.go) together with proofs about the embedded
definitions.

Paths are modelled as lists of characters (Go strings are byte strings; the
paths involved are plain ASCII, so `List Char` is a faithful carrier).
`filepath.Clean`, `filepath.Join`, `filepath.Rel` (Unix flavour) from the Go
standard library are embedded at the component level, which is the documented
lexical semantics of those functions.

Stateful Go methods become state-passing functions; writes to the upstream
`http.ResponseWriter` become explicit event lists; fallible calls return
`Option`. Oracles (`Nat → Bool`, handler functions) stand for the outcomes of
I/O performed by collaborators, so a single definition covers every run.
-/

/-- Go `string` used as a path: a sequence of characters. -/
abbrev GoStr := List Char

/-- `filepath.Separator` on Unix. -/
def pathSep : Char := '/'

/-- Split a path into components at `'/'` (Go `strings.Split(s, "/")`).
An empty input yields one empty component, as in Go. -/
def splitOnSlash : GoStr → List GoStr
  | [] => [[]]
  | c :: rest =>
    let tailSplit := splitOnSlash rest
    if c = pathSep then
      [] :: tailSplit
    else
      match tailSplit with
      | [] => [[c]]
      | s :: ss => (c :: s) :: ss

/-- The component-stack pass of Go `filepath.Clean` (Unix): drop empty and
`"."` components; `".."` pops the last real component, escapes upward only for
relative paths, and is dropped at the root of an absolute path. The
accumulator holds the output components in reverse. -/
def cleanStack (rooted : Bool) : List GoStr → List GoStr → List GoStr
  | acc, [] => acc.reverse
  | acc, comp :: rest =>
    if comp = [] ∨ comp = ['.'] then
      cleanStack rooted acc rest
    else if comp = ['.', '.'] then
      match acc with
      | [] =>
        if rooted then cleanStack rooted [] rest
        else cleanStack rooted [['.', '.']] rest
      | top :: acc' =>
        if top = ['.', '.'] then cleanStack rooted (comp :: top :: acc') rest
        else cleanStack rooted acc' rest
    else
      cleanStack rooted (comp :: acc) rest

/-- Go `filepath.Clean` for Unix paths: lexical simplification of a path. -/
def goClean (path : GoStr) : GoStr :=
  if path = [] then ['.']
  else
    let rooted := path.head? = some pathSep
    let comps := cleanStack rooted [] (splitOnSlash path)
    let body := List.intercalate [pathSep] comps
    if rooted then pathSep :: body
    else if body = [] then ['.'] else body

/-- Go `filepath.Join(a, b)` for a non-empty first element: concatenate with a
separator and clean the result. -/
def goJoin (a b : GoStr) : GoStr :=
  goClean (a ++ [pathSep] ++ b)

/-- Go `filepath.Rel(basepath, targpath)` (Unix), at the component level:
clean both paths, require agreement on absoluteness, walk off the common
component run and climb with `".."` for what is left of the base.
`none` is the error result. -/
def goRel (basepath targpath : GoStr) : Option GoStr :=
  let base := goClean basepath
  let targ := goClean targpath
  if targ = base then some ['.']
  else
    let base := if base = ['.'] then [] else base
    if (base.head? = some pathSep) ≠ (targ.head? = some pathSep) then none
    else
      let bs := (splitOnSlash base).filter (· ≠ [])
      let ts := (splitOnSlash targ).filter (· ≠ [])
      let n := ((List.zip bs ts).takeWhile (fun p => p.1 = p.2)).length
      let brest := bs.drop n
      if brest.contains ['.', '.'] then none
      else
        some (List.intercalate [pathSep]
          (List.replicate brest.length ['.', '.'] ++ ts.drop n))

/-- `DirectoryRunner` from runners.go: serves scripts from `ScriptsDir`
(documented to be absolute). -/
structure DirectoryRunner where
  AllowDotFiles : Bool
  ScriptsDir : GoStr

/-- `DirectoryRunner.isPathAllowed` from runners.go: with dot files disabled,
no component of the path relative to `ScriptsDir` may start with `'.'`. -/
def DirectoryRunner.isPathAllowed (dr : DirectoryRunner) (scriptPath : GoStr) : Bool :=
  if dr.AllowDotFiles then true
  else
    match goRel dr.ScriptsDir scriptPath with
    | none => false
    | some relPath =>
      (splitOnSlash relPath).all (fun part => !(part.head? = some '.' : Bool))

/-- `DirectoryRunner.Command` from runners.go.
`filepath.Abs(filepath.Join(dir, p))` with `dir` absolute is
`Clean(dir + "/" + p)` (the join result is already absolute, `Abs` of an
absolute path is `Clean`, `Clean` is idempotent, and `Abs` cannot fail on an
absolute input). The guard is Go `strings.HasPrefix(absScriptPath, dir + "/")`. -/
def DirectoryRunner.Command (dr : DirectoryRunner) (urlPath : GoStr) : Option (List GoStr) :=
  let absScriptPath := goClean (dr.ScriptsDir ++ [pathSep] ++ urlPath)
  if (dr.ScriptsDir ++ [pathSep]).isPrefixOf absScriptPath then
    if dr.isPathAllowed absScriptPath then some [absScriptPath]
    else none
  else none

/-! ## Queues (queue.go) -/

/-- Outcome of one `Pop` call, at the sequential-atomic level: the queue
either hands out an item, or the caller's context is cancelled and `ctx.Err()`
is returned, or the call blocks waiting for a push. -/
inductive PopOutcome where
  | popped (value : String)
  | cancelledErr
  | blocked
  deriving DecidableEq

/-- `inMemory.Pop` from queue.go: take the front element if present (the
`select` on `ctx.Done()`/`notify` is reached only when the list was observed
empty; with no concurrent push the loop then terminates in `ctx.Err()` iff the
context is cancelled). Returns the outcome and the queue content afterwards. -/
def inMemoryPop (ctxCancelled : Bool) (content : List String) :
    PopOutcome × List String :=
  match content with
  | v :: rest => (.popped v, rest)
  | [] => if ctxCancelled then (.cancelledErr, []) else (.blocked, [])

/-- `boundQueue.Pop` from queue.go: a `select` between the channel receive and
`ctx.Done()`. When both are ready Go picks one pseudo-randomly; `pickItem`
records that choice. Returns the outcome and the channel content afterwards. -/
def boundQueuePop (ctxCancelled pickItem : Bool) (content : List String) :
    PopOutcome × List String :=
  match content with
  | [] => if ctxCancelled then (.cancelledErr, []) else (.blocked, [])
  | v :: rest =>
    if ctxCancelled then
      if pickItem then (.popped v, rest) else (.cancelledErr, v :: rest)
    else (.popped v, rest)

/-- An operation applied to a queue in a sequential history: a `Push` of a
value, or a `Pop` attempt (which, on an empty queue, is a cancelled wait). -/
inductive QOp where
  | push (v : String)
  | pop
  deriving DecidableEq

/-- Run a history of operations against `inMemory` from queue.go:
`Push` appends at the back (`PushBack`) and always succeeds; `Pop` removes the
front element when present and removes nothing otherwise. Returns the final
content and the popped values in order. -/
def inMemoryExec : List String → List QOp → List String × List String
  | st, [] => (st, [])
  | st, .push v :: ops => inMemoryExec (st ++ [v]) ops
  | st, .pop :: ops =>
    match st with
    | [] => inMemoryExec [] ops
    | v :: rest =>
      let (fin, popped) := inMemoryExec rest ops
      (fin, v :: popped)

/-- Run a history against `boundQueue` from queue.go: `Push` succeeds only
while the buffered channel has free capacity (otherwise the caller blocks and,
in this history, gives up via cancellation with no effect); `Pop` receives the
front element when present. Returns the final content, the popped values in
order, and the successfully pushed values in order. -/
def boundQueueExec (cap : Nat) : List String → List QOp → List String × List String × List String
  | st, [] => (st, [], [])
  | st, .push v :: ops =>
    if st.length < cap then
      let (fin, popped, pushed) := boundQueueExec cap (st ++ [v]) ops
      (fin, popped, v :: pushed)
    else boundQueueExec cap st ops
  | st, .pop :: ops =>
    match st with
    | [] => boundQueueExec cap [] ops
    | v :: rest =>
      let (fin, popped, pushed) := boundQueueExec cap rest ops
      (fin, v :: popped, pushed)

/-- All values pushed in a history (every `inMemory.Push` succeeds). -/
def pushedValues : List QOp → List String
  | [] => []
  | .push v :: ops => v :: pushedValues ops
  | .pop :: ops => pushedValues ops

/-! ## Request size limiter (limiters.go) -/

/-- Errors surfaced by readers in the embedding: `ErrTooBigRequest`, `io.EOF`
or any other I/O error. -/
inductive GoError where
  | tooBigRequest
  | eofErr
  | ioErr (msg : String)
  deriving DecidableEq

/-- The mutable fields of `sizeLimiter` from limiters.go (the wrapped reader
itself is passed to `sizeLimiterRead` as an oracle). -/
structure sizeLimiter where
  maxSize : Int
  consumed : Int
  err : Option GoError
  deriving DecidableEq

/-- `sizeLimiter.Read` from limiters.go. `plen` is `len(p)`; `uRead n` is the
result of `sl.reader.Read(p[:n])` (bytes read and error). Note the early
branch translates `return 0, err` literally: `err` there is the *named return
value*, still nil, not the stored `sl.err`. -/
def sizeLimiterRead (sl : sizeLimiter) (plen : Nat)
    (uRead : Nat → Nat × Option GoError) : (Nat × Option GoError) × sizeLimiter :=
  if sl.err.isSome then ((0, none), sl)
  else
    let chunk : Int := (plen : Int)
    let left := sl.maxSize - sl.consumed
    if left ≤ 0 then
      ((0, some .tooBigRequest), { sl with err := some .tooBigRequest })
    else
      let chunk := if left < chunk then left else chunk
      let r := uRead chunk.toNat
      ((r.1, r.2), { sl with err := r.2, consumed := sl.consumed + (r.1 : Int) })

/-- A sequence of `Read` calls against the same `sizeLimiter`; each call
supplies its buffer length and its underlying-reader oracle. Returns the
returned `(n, err)` pairs in order and the final state. -/
def sizeLimiterRun (sl : sizeLimiter) :
    List (Nat × (Nat → Nat × Option GoError)) →
      List (Nat × Option GoError) × sizeLimiter
  | [] => ([], sl)
  | (plen, u) :: calls =>
    let step := sizeLimiterRead sl plen u
    let rest := sizeLimiterRun step.2 calls
    (step.1 :: rest.1, rest.2)

/-! ## Buffered response (wehbook.go) -/

/-- A response body chunk: a sequence of bytes. -/
abbrev GoBytes := List Nat

/-- What the upstream `http.ResponseWriter` receives: a committed status line
or a body write. -/
inductive UpEvent where
  | header (status : Int)
  | chunk (data : GoBytes)
  deriving DecidableEq

/-- `bufferedResponse` from wehbook.go. The upstream writer is modelled by
the `UpEvent` lists the operations emit; `headers` is the upstream header map
reached through `Header()` (mutable until the status is committed);
`created` is dropped (only used for metrics timing). -/
structure bufferedResponse where
  bufferSize : Int
  statusCode : Int
  headersSent : Bool
  buffer : GoBytes
  sent : Nat
  headers : List (String × String)
  deriving DecidableEq

/-- `bufferedResponse.flush` from wehbook.go: once per response, commit the
recorded status upstream (when one was recorded; a zero status is replaced by
200 locally and the upstream default applies), then emit any buffered bytes in
one write and release the buffer. -/
def bufferedResponse.flush (br : bufferedResponse) : bufferedResponse × List UpEvent :=
  if br.headersSent then (br, [])
  else
    let step :=
      if br.statusCode ≠ 0 then (br, [UpEvent.header br.statusCode])
      else ({ br with statusCode := 200 }, ([] : List UpEvent))
    let br1 := { step.1 with headersSent := true }
    if br1.buffer = [] then (br1, step.2)
    else
      ({ br1 with sent := br1.sent + br1.buffer.length, buffer := [] },
        step.2 ++ [UpEvent.chunk br1.buffer])

/-- `bufferedResponse.Write` from wehbook.go: pass through (flushing first)
when already flushed or buffering is disabled; otherwise accumulate and flush
as soon as the buffer length reaches the soft limit. -/
def bufferedResponse.write (br : bufferedResponse) (data : GoBytes) :
    bufferedResponse × List UpEvent :=
  if br.headersSent ∨ br.bufferSize ≤ 0 then
    let step := br.flush
    ({ step.1 with sent := step.1.sent + data.length }, step.2 ++ [UpEvent.chunk data])
  else
    let br1 := { br with buffer := br.buffer ++ data }
    if (br1.buffer.length : Int) < br1.bufferSize then (br1, [])
    else br1.flush

/-- `bufferedResponse.WriteHeader` from wehbook.go: record, do not emit. -/
def bufferedResponse.writeHeader (br : bufferedResponse) (statusCode : Int) : bufferedResponse :=
  { br with statusCode := statusCode }

/-- Go `http.Header.Set`: replace any existing values for the key. -/
def headerSet (hs : List (String × String)) (key value : String) :
    List (String × String) :=
  (key, value) :: hs.filter (fun kv => kv.1 ≠ key)

/-- Go `http.Header.Get`: first value stored for the key. -/
def headerGet (hs : List (String × String)) (key : String) : Option String :=
  (hs.find? (fun kv => kv.1 == key)).map (·.2)

/-- An operation the executor or the child's stdout performs on the response
wrapper. -/
inductive ROp where
  | write (data : GoBytes)
  | writeHeader (status : Int)
  deriving DecidableEq

/-- Apply a sequence of response operations, accumulating upstream events. -/
def bufferedResponse.runOps (br : bufferedResponse) :
    List ROp → bufferedResponse × List UpEvent
  | [] => (br, [])
  | .write d :: ops =>
    let step := br.write d
    let rest := bufferedResponse.runOps step.1 ops
    (rest.1, step.2 ++ rest.2)
  | .writeHeader c :: ops => bufferedResponse.runOps (br.writeHeader c) ops

/-- The wrapper as `webhookDaemon.ServeHTTP` creates it. -/
def initBuffered (bufferSize : Int) : bufferedResponse :=
  { bufferSize := bufferSize, statusCode := 0, headersSent := false,
    buffer := [], sent := 0, headers := [] }

/-- Total body bytes written by a sequence of operations. -/
def totalWritten : List ROp → Nat
  | [] => 0
  | .write d :: ops => d.length + totalWritten ops
  | .writeHeader _ :: ops => totalWritten ops

/-- Body bytes written by a sequence of operations, in order. -/
def writtenBytes : List ROp → GoBytes
  | [] => []
  | .write d :: ops => d ++ writtenBytes ops
  | .writeHeader _ :: ops => writtenBytes ops

/-- The recorded status after a sequence of operations, starting from `s`
(`0` is the unset state, as in the source; each `WriteHeader` overwrites). -/
def lastStatusRecorded (s : Int) : List ROp → Int
  | [] => s
  | .write _ :: ops => lastStatusRecorded s ops
  | .writeHeader c :: ops => lastStatusRecorded c ops

/-- The status the upstream client observes from an event stream: the first
committed status line, else the `net/http` implicit 200. -/
def deliveredStatus : List UpEvent → Int
  | [] => 200
  | .header s :: _ => s
  | .chunk _ :: evs => deliveredStatus evs

/-! ## Executor failure mapping (wehbook.go `ServeHTTP`, after `cmd.Run()`) -/

/-- The shape of a non-nil `cmd.Run()` error, as the executor inspects it:
`errors.Is(err, context.DeadlineExceeded)`, `errors.Is(err, os.ErrNotExist)`,
and `err.Error()`. -/
structure RunError where
  deadlineExceeded : Bool
  notExist : Bool
  text : String
  deriving DecidableEq

/-- The status chosen in wehbook.go lines 120–126: 502 by default, 504 for a
deadline error, 404 for a missing executable. -/
def runErrorStatus (e : RunError) : Int :=
  if e.deadlineExceeded then 504
  else if e.notExist then 404
  else 502

/-- wehbook.go lines 128–132: when the response is not yet flushed, stamp
`X-Error` with the error text and record the mapped status; otherwise leave
the response untouched. -/
def handleRunFailure (response : bufferedResponse) (e : RunError) : bufferedResponse :=
  if !response.headersSent then
    ({ response with
        headers := headerSet response.headers "X-Error" e.text }).writeHeader
      (runErrorStatus e)
  else response

/-! ## Async worker (async.go) -/

/-- The environment of one spooled request being processed by
`AsyncProcessor`: the manifest retries, the headers parsed back from the
spooled file, and oracles for the per-attempt I/O (`ioOk i` = seek and
`http.ReadRequest` succeed on attempt `i`), the handler observed through the
discarding `nopWriter` (`sinkStatus` maps the replayed request's headers to
the recorded status, `0` when the handler never calls `WriteHeader`), and
cancellation (`cancelledAt i` = `ctx.Done()` fires during the wait after
attempt `i`). -/
structure AsyncEnv where
  Retries : Nat
  baseHeaders : List (String × String)
  ioOk : Nat → Bool
  sinkStatus : List (String × String) → Int
  cancelledAt : Nat → Bool

/-- The success test in `processRequestAsyncAttempt`:
`res.status == 0 || res.status/100 == 2`. -/
def attemptStatusOk (status : Int) : Bool :=
  status == 0 || status / 100 == 2

/-- The headers of the replayed request at a 0-based attempt index:
`req.Header.Set("X-Attempt", strconv.FormatUint(attempt+1, 10))`. -/
def attemptHeaders (env : AsyncEnv) (attempt : Nat) : List (String × String) :=
  headerSet env.baseHeaders "X-Attempt" (toString (attempt + 1))

/-- `AsyncProcessor.processRequestAsyncAttempt` from async.go: `true` means
the attempt returned `nil` (file rewound and parsed, handler replayed, sink
status 0 or 2xx). -/
def processRequestAsyncAttempt (env : AsyncEnv) (attempt : Nat) : Bool :=
  env.ioOk attempt && attemptStatusOk (env.sinkStatus (attemptHeaders env attempt))

/-- The retry loop of `AsyncProcessor.processRequestAsync`
(`for i := 0; i <= retries; i++` with an early return on success and on
cancellation during the inter-attempt wait). Returns the 0-based indices of
the attempts performed; `fuel` bounds the remaining iterations. -/
def processLoop (env : AsyncEnv) : Nat → Nat → List Nat
  | 0, _ => []
  | fuel + 1, i =>
    i :: (if processRequestAsyncAttempt env i then []
          else if i < env.Retries then
            (if env.cancelledAt i then [] else processLoop env fuel (i + 1))
          else [])

/-- `AsyncProcessor.processRequestAsync` from async.go: the attempt indices
performed for one spooled request. -/
def processRequestAsync (env : AsyncEnv) : List Nat :=
  processLoop env (env.Retries + 1) 0

/-- The open-retry loop of `AsyncProcessor.openStoredRequestFile`
(`for i := 0; i <= retries; i++` around `os.Open`): index of the first
successful open, or `none` for `ErrUnprocessableFile`. -/
def openStoredLoop (openOk : Nat → Bool) (retries : Nat) : Nat → Nat → Option Nat
  | 0, _ => none
  | fuel + 1, i =>
    if openOk i then some i
    else if i < retries then openStoredLoop openOk retries fuel (i + 1)
    else none

/-- `AsyncProcessor.openStoredRequestFile` from async.go. -/
def openStoredRequestFile (openOk : Nat → Bool) (retries : Nat) : Option Nat :=
  openStoredLoop openOk retries (retries + 1) 0

/-- Externally visible effects of `AsyncProcessor.Run` handling one popped
queue item (async.go lines 195–204). -/
inductive WorkerEffect where
  | loggedUnprocessable
  | attempted (idx : Nat)
  | fileClosed
  | fileDeleted
  deriving DecidableEq

/-- The per-item environment of a worker: processing parameters plus the
`os.Open` oracle used by the open-retry loop. -/
structure WorkerEnv where
  proc : AsyncEnv
  openOk : Nat → Bool

/-- The body of `AsyncProcessor.Run` after a successful `Pop` (async.go lines
195–204): open the stored file with retries; on failure log and continue to
the next item; on success process the request and then close and delete the
file. -/
def runPoppedItem (env : WorkerEnv) : List WorkerEffect :=
  match openStoredRequestFile env.openOk env.proc.Retries with
  | none => [WorkerEffect.loggedUnprocessable]
  | some _ =>
    (processRequestAsync env.proc).map WorkerEffect.attempted
      ++ [WorkerEffect.fileClosed, WorkerEffect.fileDeleted]

/-! ## Per-file attribute overrides (limiters.go `readAttrs`) -/

/-- Modelled from the spec: the attribute names live in the `user.webhook.*`
namespace; their Go constant declarations are not under src/. Only their
identity and distinctness matter here. -/
def AttrAsync : String := "user.webhook.async"

/-- Modelled from the spec: see `AttrAsync`. -/
def AttrTimeout : String := "user.webhook.timeout"

/-- Modelled from the spec: see `AttrAsync`. -/
def AttrDelay : String := "user.webhook.delay"

/-- Modelled from the spec: see `AttrAsync`. -/
def AttrRetries : String := "user.webhook.retries"

/-- `AsyncMode` from async.go. -/
inductive AsyncMode where
  | auto
  | forced
  | disabled
  deriving DecidableEq

/-- Modelled from the spec: `AsyncMode.UnmarshalText` is not under src/; the
text forms are the mode names (`auto`, `forced`, `disabled`). -/
def parseAsyncMode (s : String) : Option AsyncMode :=
  if s = "auto" then some .auto
  else if s = "forced" then some .forced
  else if s = "disabled" then some .disabled
  else none

/-- Decimal digit run to a number; `none` on empty input or a non-digit. -/
def parseNatDigits : List Char → Option Nat
  | [] => none
  | cs =>
    cs.foldl
      (fun acc c =>
        match acc with
        | none => none
        | some n => if c.isDigit then some (n * 10 + (c.toNat - 48)) else none)
      (some 0)

/-- Nanoseconds per duration unit accepted by Go `time.ParseDuration`. -/
def durationUnitNanos (u : String) : Option Int :=
  if u = "ns" then some 1
  else if u = "us" then some 1000
  else if u = "ms" then some 1000000
  else if u = "s" then some 1000000000
  else if u = "m" then some 60000000000
  else if u = "h" then some 3600000000000
  else none

/-- Modelled from the spec: a "duration literal" parsed as Go
`time.ParseDuration` (external library) does for the simple `<digits><unit>`
forms; only parse success versus failure matters for the claims. -/
def parseDuration (s : String) : Option Int :=
  let cs := s.toList
  let digits := cs.takeWhile Char.isDigit
  let unit := cs.dropWhile Char.isDigit
  match parseNatDigits digits, durationUnitNanos (String.mk unit) with
  | some n, some u => some ((n : Int) * u)
  | _, _ => none

/-- Go `strconv.ParseUint(s, 10, 64)` on in-range inputs. -/
def parseUintDec (s : String) : Option Nat :=
  parseNatDigits s.toList

/-- Modelled from the spec: the `Manifest` type (declared outside src/) — the
effective execution plan: command, async mode, timeout, retries, delay. -/
structure Manifest where
  Command : List String
  Async : AsyncMode
  Timeout : Int
  Delay : Int
  Retries : Nat
  deriving DecidableEq

/-- `readAttrs` from limiters.go. The file's extended attributes are given as
`(name, value?)` pairs in `xattr.List` order, `none` meaning `xattr.Get`
failed. The Go function mutates the manifest in place and returns early with
an error at the first unreadable or unparseable recognized attribute, so the
result is the manifest as mutated so far together with the optional error.
(The source labels the `AttrRetries` parse error "as duration" — a copied
message; the text is irrelevant here.) -/
def readAttrs : List (String × Option String) → Manifest → Manifest × Option String
  | [], manifest => (manifest, none)
  | (name, data?) :: rest, manifest =>
    if name = AttrAsync then
      match data? with
      | none => (manifest, some ("read " ++ name))
      | some data =>
        match parseAsyncMode data with
        | none => (manifest, some ("parse " ++ name ++ " as async mode"))
        | some mode => readAttrs rest { manifest with Async := mode }
    else if name = AttrTimeout then
      match data? with
      | none => (manifest, some ("read " ++ name))
      | some data =>
        match parseDuration data with
        | none => (manifest, some ("parse " ++ name ++ " as duration"))
        | some v => readAttrs rest { manifest with Timeout := v }
    else if name = AttrDelay then
      match data? with
      | none => (manifest, some ("read " ++ name))
      | some data =>
        match parseDuration data with
        | none => (manifest, some ("parse " ++ name ++ " as duration"))
        | some v => readAttrs rest { manifest with Delay := v }
    else if name = AttrRetries then
      match data? with
      | none => (manifest, some ("read " ++ name))
      | some data =>
        match parseUintDec data with
        | none => (manifest, some ("parse " ++ name ++ " as duration"))
        | some v => readAttrs rest { manifest with Retries := v }
    else readAttrs rest manifest

/-- The effect of one attribute on the manifest when it parses; identity for
an unrecognized, unreadable or unparseable attribute. -/
def applyAttr (m : Manifest) : String × Option String → Manifest
  | (name, data?) =>
    if name = AttrAsync then
      match data?.bind parseAsyncMode with
      | some mode => { m with Async := mode }
      | none => m
    else if name = AttrTimeout then
      match data?.bind parseDuration with
      | some v => { m with Timeout := v }
      | none => m
    else if name = AttrDelay then
      match data?.bind parseDuration with
      | some v => { m with Delay := v }
      | none => m
    else if name = AttrRetries then
      match data?.bind parseUintDec with
      | some v => { m with Retries := v }
      | none => m
    else m

/-- The spec's reading of attribute merging ("unparseable attributes are
logged and skipped"): apply every attribute that parses, skip every one that
does not, never stop early. Named after the spec, for comparison with the
source's `readAttrs`. -/
def readAttrsSpec (attrs : List (String × Option String)) (m : Manifest) : Manifest :=
  attrs.foldl applyAttr m

/-- Whether an attribute entry makes `readAttrs` fail: a recognized name whose
value is unreadable or unparseable. -/
def attrFailure : String × Option String → Bool
  | (name, data?) =>
    if name = AttrAsync then (data?.bind parseAsyncMode).isNone
    else if name = AttrTimeout then (data?.bind parseDuration).isNone
    else if name = AttrDelay then (data?.bind parseDuration).isNone
    else if name = AttrRetries then (data?.bind parseUintDec).isNone
    else false

/-- Modelled from the spec: the directory-runner caller of `readAttrs` is not
under src/; per the spec ("Parse failures are non-fatal", "Unparseable
attributes are logged and skipped (they do not fail the request)") it logs any
returned error and proceeds with the merged manifest, never failing the
request. -/
def mergeFileAttrs (attrs : List (String × Option String)) (base : Manifest) : Manifest :=
  (readAttrs attrs base).1

/-! ## Theorems -/

theorem inMemoryExec_eq (st : List String) (ops : List QOp) :
    st ++ pushedValues ops = (inMemoryExec st ops).2 ++ (inMemoryExec st ops).1 := by
  induction ops generalizing st with
  | nil => simp [inMemoryExec, pushedValues]
  | cons op ops ih =>
    cases op with
    | push v =>
      have h := ih (st ++ [v])
      simpa [inMemoryExec, pushedValues, List.append_assoc] using h
    | pop =>
      cases st with
      | nil => simpa [inMemoryExec, pushedValues] using ih []
      | cons v rest =>
        have h := ih rest
        simp only [inMemoryExec, pushedValues]
        cases hev : inMemoryExec rest ops with
        | mk fin popped =>
          rw [hev] at h
          simpa using h

theorem boundQueueExec_eq (cap : Nat) (st : List String) (ops : List QOp) :
    st ++ (boundQueueExec cap st ops).2.2
      = (boundQueueExec cap st ops).2.1 ++ (boundQueueExec cap st ops).1 := by
  induction ops generalizing st with
  | nil => simp [boundQueueExec]
  | cons op ops ih =>
    cases op with
    | push v =>
      by_cases hc : st.length < cap
      · have h := ih (st ++ [v])
        simp only [boundQueueExec, if_pos hc]
        cases hev : boundQueueExec cap (st ++ [v]) ops with
        | mk fin rest2 =>
          rw [hev] at h
          simpa [List.append_assoc] using h
      · simpa [boundQueueExec, if_neg hc] using ih st
    | pop =>
      cases st with
      | nil => simpa [boundQueueExec] using ih []
      | cons v rest =>
        have h := ih rest
        simp only [boundQueueExec]
        cases hev : boundQueueExec cap rest ops with
        | mk fin rest2 =>
          rw [hev] at h
          simpa using h

/-- C7: for one queue of either variant, run from empty over any sequential
history, the successfully pushed values are exactly the popped values followed
by the remaining content — hence the pop order equals the push order (the
popped sequence is an initial run of the pushed sequence) and no pushed item
is popped more often than it was pushed. -/
theorem queue_fifo_no_duplicates (ops : List QOp) (cap : Nat) :
    (pushedValues ops
        = (inMemoryExec [] ops).2 ++ (inMemoryExec [] ops).1
      ∧ (inMemoryExec [] ops).2 <+: pushedValues ops
      ∧ ∀ v, ((inMemoryExec [] ops).2.count v ≤ (pushedValues ops).count v))
    ∧ ((boundQueueExec cap [] ops).2.2
        = (boundQueueExec cap [] ops).2.1 ++ (boundQueueExec cap [] ops).1
      ∧ (boundQueueExec cap [] ops).2.1 <+: (boundQueueExec cap [] ops).2.2
      ∧ ∀ v, ((boundQueueExec cap [] ops).2.1.count v
          ≤ (boundQueueExec cap [] ops).2.2.count v)) := by
  have h1 := inMemoryExec_eq [] ops
  have h2 := boundQueueExec_eq cap [] ops
  simp only [List.nil_append] at h1 h2
  have p1 : (inMemoryExec [] ops).2 <+: pushedValues ops :=
    ⟨(inMemoryExec [] ops).1, h1.symm⟩
  have p2 : (boundQueueExec cap [] ops).2.1 <+: (boundQueueExec cap [] ops).2.2 :=
    ⟨(boundQueueExec cap [] ops).1, h2.symm⟩
  exact ⟨⟨h1, p1, fun v => p1.sublist.count_le v⟩,
         ⟨h2, p2, fun v => p2.sublist.count_le v⟩⟩

/-- C8: whenever a `Pop` on either queue variant returns the cancellation
error, the queue content is unchanged: the cancelled call removed nothing. -/
theorem queue_pop_cancelled_no_loss (c pickItem : Bool) (st : List String) :
    ((inMemoryPop c st).1 = .cancelledErr → (inMemoryPop c st).2 = st)
    ∧ ((boundQueuePop c pickItem st).1 = .cancelledErr
        → (boundQueuePop c pickItem st).2 = st) := by
  cases st with
  | nil => cases c <;> simp [inMemoryPop, boundQueuePop]
  | cons v rest =>
    cases c <;> cases pickItem <;> simp [inMemoryPop, boundQueuePop]

/-- C8 witness: a cancelled `Pop` on the singleton queue (the bounded variant
choosing the cancellation arm) leaves the content intact. -/
theorem queue_pop_cancelled_no_loss_witness :
    (boundQueuePop true false ["a"]).1 = .cancelledErr
    ∧ (boundQueuePop true false ["a"]).2 = ["a"] :=
  ⟨by decide, (queue_pop_cancelled_no_loss true false ["a"]).2 (by decide)⟩

/-- C10: `inMemory.Pop` returns the front item whenever the queue is
non-empty, even under an already-cancelled context; the cancellation error is
only possible when the queue was observed empty. -/
theorem inMemoryPop_nonempty_delivers (c : Bool) (st : List String) :
    (st ≠ [] → ∃ v rest, st = v :: rest ∧ inMemoryPop c st = (.popped v, rest))
    ∧ ((inMemoryPop c st).1 = .cancelledErr → st = []) := by
  cases st with
  | nil => cases c <;> simp [inMemoryPop]
  | cons v rest =>
    refine ⟨fun _ => ⟨v, rest, rfl, rfl⟩, ?_⟩
    intro h
    simp [inMemoryPop] at h

/-- C10 witness: with a cancelled context and a non-empty queue, `Pop` still
delivers the front element. -/
theorem inMemoryPop_nonempty_delivers_witness :
    (["x", "y"] : List String) ≠ []
    ∧ ∃ v rest, (["x", "y"] : List String) = v :: rest
        ∧ inMemoryPop true ["x", "y"] = (.popped v, rest) :=
  ⟨by decide, (inMemoryPop_nonempty_delivers true ["x", "y"]).1 (by decide)⟩

/-- C1: whenever the directory runner returns a command, it is a single
absolute path strictly inside `<ScriptsDir>/`; and any request whose cleaned
path escapes the scripts root (in particular via `..`) resolves to `none`. -/
theorem DirectoryRunner.command_stays_in_root (dr : DirectoryRunner) (urlPath : GoStr)
    (habs : dr.ScriptsDir.head? = some pathSep) :
    (∀ cmd, dr.Command urlPath = some cmd →
      ∃ p, cmd = [p] ∧ (dr.ScriptsDir ++ [pathSep]) <+: p ∧ p.head? = some pathSep)
    ∧ ((dr.ScriptsDir ++ [pathSep]).isPrefixOf
        (goClean (dr.ScriptsDir ++ [pathSep] ++ urlPath)) = false →
      dr.Command urlPath = none) := by
  constructor
  · intro cmd h
    unfold DirectoryRunner.Command at h
    by_cases h1 : (dr.ScriptsDir ++ [pathSep]).isPrefixOf
        (goClean (dr.ScriptsDir ++ [pathSep] ++ urlPath))
    · rw [if_pos h1] at h
      by_cases h2 : dr.isPathAllowed (goClean (dr.ScriptsDir ++ [pathSep] ++ urlPath))
      · rw [if_pos h2] at h
        injection h with h
        refine ⟨goClean (dr.ScriptsDir ++ [pathSep] ++ urlPath), h.symm, ?_, ?_⟩
        · exact List.isPrefixOf_iff_prefix.mp h1
        · have hpre := List.isPrefixOf_iff_prefix.mp h1
          obtain ⟨t, ht⟩ := hpre
          cases hs : dr.ScriptsDir with
          | nil => rw [hs] at habs; simp at habs
          | cons a rest =>
            rw [hs] at habs
            simp only [List.head?_cons, Option.some.injEq] at habs
            rw [hs] at ht
            rw [← ht]
            simp [habs]
      · rw [if_neg h2] at h
        simp at h
    · rw [if_neg h1] at h
      simp at h
  · intro h
    unfold DirectoryRunner.Command
    dsimp only
    split
    case isTrue hpos =>
      rw [h] at hpos
      exact Bool.noConfusion hpos
    case isFalse hneg => rfl

/-- C1 witness: with scripts root `/scripts`, the traversal request
`/../etc/passwd` cleans to `/etc/passwd`, fails the strict-prefix guard, and
resolves to no command. -/
theorem DirectoryRunner.command_stays_in_root_witness :
    ("/scripts".toList : GoStr).head? = some pathSep
    ∧ (("/scripts".toList : GoStr) ++ [pathSep]).isPrefixOf
        (goClean (("/scripts".toList : GoStr) ++ [pathSep] ++ "/../etc/passwd".toList))
        = false
    ∧ (DirectoryRunner.mk false ("/scripts".toList)).Command ("/../etc/passwd".toList)
        = none :=
  ⟨by decide, by decide,
    (DirectoryRunner.command_stays_in_root ⟨false, "/scripts".toList⟩
      ("/../etc/passwd".toList) (by decide)).2 (by decide)⟩

theorem sizeLimiterRead_stuck (sl : sizeLimiter) (plen : Nat)
    (u : Nat → Nat × Option GoError) (h : sl.err.isSome) :
    sizeLimiterRead sl plen u = ((0, none), sl) := by
  unfold sizeLimiterRead
  rw [if_pos h]

theorem sizeLimiterRead_stores_error (sl : sizeLimiter) (plen : Nat)
    (u : Nat → Nat × Option GoError)
    (h : (sizeLimiterRead sl plen u).1.2 ≠ none) :
    ((sizeLimiterRead sl plen u).2).err.isSome := by
  unfold sizeLimiterRead at h ⊢
  by_cases h0 : sl.err.isSome
  · rw [if_pos h0] at h
    exact absurd rfl h
  · rw [if_neg h0] at h ⊢
    by_cases h1 : sl.maxSize - sl.consumed ≤ 0
    · rw [if_pos h1] at h ⊢
      rfl
    · rw [if_neg h1] at h ⊢
      simp only [ne_eq, Option.isSome_iff_ne_none]
      exact h

theorem sizeLimiterRun_stuck (sl : sizeLimiter)
    (calls : List (Nat × (Nat → Nat × Option GoError))) (h : sl.err.isSome) :
    sizeLimiterRun sl calls = (calls.map (fun _ => (0, none)), sl) := by
  induction calls with
  | nil => simp [sizeLimiterRun]
  | cons call calls ih =>
    obtain ⟨plen, u⟩ := call
    simp only [sizeLimiterRun, sizeLimiterRead_stuck sl plen u h, ih, List.map]

/-- C9: once a `sizeLimiter.Read` has returned a non-nil error (the too-big
error included), every subsequent `Read` returns `(0, nil)` and leaves the
state untouched — the stored error is never surfaced again, because the early
branch returns the still-nil named `err`, not `sl.err`. -/
theorem sizeLimiter_error_returned_once (sl : sizeLimiter) (plen : Nat)
    (u : Nat → Nat × Option GoError)
    (calls : List (Nat × (Nat → Nat × Option GoError)))
    (h : (sizeLimiterRead sl plen u).1.2 ≠ none) :
    (sizeLimiterRun (sizeLimiterRead sl plen u).2 calls).1
      = calls.map (fun _ => (0, none))
    ∧ (sizeLimiterRun (sizeLimiterRead sl plen u).2 calls).2
      = (sizeLimiterRead sl plen u).2 := by
  have herr := sizeLimiterRead_stores_error sl plen u h
  rw [sizeLimiterRun_stuck _ _ herr]
  exact ⟨rfl, rfl⟩

/-- C9 witness: a limiter with no budget left returns the too-big error, and
the two `Read` calls after it both return `(0, nil)`. -/
theorem sizeLimiter_error_returned_once_witness :
    (sizeLimiterRead ⟨8, 8, none⟩ 4 (fun _ => (0, none))).1.2 ≠ none
    ∧ (sizeLimiterRun (sizeLimiterRead ⟨8, 8, none⟩ 4 (fun _ => (0, none))).2
        [(4, fun _ => (0, none)), (2, fun _ => (1, some .eofErr))]).1
      = [(0, none), (0, none)] :=
  ⟨by decide,
    (sizeLimiter_error_returned_once ⟨8, 8, none⟩ 4 (fun _ => (0, none))
      [(4, fun _ => (0, none)), (2, fun _ => (1, some .eofErr))] (by decide)).1⟩

theorem headerGet_headerSet (hs : List (String × String)) (k v : String) :
    headerGet (headerSet hs k v) k = some v := by
  unfold headerGet headerSet
  rw [List.find?_cons_of_pos _ (by simp)]
  rfl

/-- C4: on a failed child run with the response not yet flushed, the executor
stamps `X-Error` with the error text and records 504 for a deadline error,
404 for a missing executable (when not a deadline error), and 502 otherwise;
on an already-flushed response it changes nothing, so the committed status
stands. -/
theorem executor_failure_status_mapping (response : bufferedResponse) (e : RunError) :
    (response.headersSent = false →
      headerGet (handleRunFailure response e).headers "X-Error" = some e.text
      ∧ (e.deadlineExceeded = true →
          (handleRunFailure response e).statusCode = 504)
      ∧ (e.deadlineExceeded = false → e.notExist = true →
          (handleRunFailure response e).statusCode = 404)
      ∧ (e.deadlineExceeded = false → e.notExist = false →
          (handleRunFailure response e).statusCode = 502))
    ∧ (response.headersSent = true → handleRunFailure response e = response) := by
  constructor
  · intro hsent
    unfold handleRunFailure
    rw [hsent]
    simp only [Bool.not_false, if_pos]
    refine ⟨headerGet_headerSet _ _ _, ?_, ?_, ?_⟩
    · intro hd
      simp [bufferedResponse.writeHeader, runErrorStatus, hd]
    · intro hd hn
      simp [bufferedResponse.writeHeader, runErrorStatus, hd, hn]
    · intro hd hn
      simp [bufferedResponse.writeHeader, runErrorStatus, hd, hn]
  · intro hsent
    unfold handleRunFailure
    rw [hsent]
    simp

/-- C4 witness: a deadline error on an unflushed response yields `X-Error`
with the error text and a recorded 504. -/
theorem executor_failure_status_mapping_witness :
    (initBuffered 8192).headersSent = false
    ∧ headerGet (handleRunFailure (initBuffered 8192)
        ⟨true, false, "context deadline exceeded"⟩).headers "X-Error"
      = some "context deadline exceeded"
    ∧ (handleRunFailure (initBuffered 8192)
        ⟨true, false, "context deadline exceeded"⟩).statusCode = 504 := by
  have h := (executor_failure_status_mapping (initBuffered 8192)
    ⟨true, false, "context deadline exceeded"⟩).1 (by decide)
  exact ⟨by decide, h.1, h.2.1 (by decide)⟩

theorem bufferedResponse_write_buffers (br : bufferedResponse) (d : GoBytes)
    (hsent : br.headersSent = false) (hL : 0 < br.bufferSize)
    (hlen : ((br.buffer ++ d).length : Int) < br.bufferSize) :
    br.write d = ({ br with buffer := br.buffer ++ d }, []) := by
  unfold bufferedResponse.write
  rw [if_neg]
  · dsimp only
    rw [if_pos hlen]
  · rw [hsent]
    simp only [Bool.false_eq_true, false_or, not_le]
    exact hL

theorem runOps_buffering (br : bufferedResponse) (ops : List ROp)
    (hsent : br.headersSent = false) (hL : 0 < br.bufferSize)
    (hsize : (br.buffer.length : Int) + (totalWritten ops : Int) < br.bufferSize) :
    bufferedResponse.runOps br ops =
      ({ br with statusCode := lastStatusRecorded br.statusCode ops,
                 buffer := br.buffer ++ writtenBytes ops }, []) := by
  induction ops generalizing br with
  | nil =>
    simp [bufferedResponse.runOps, lastStatusRecorded, writtenBytes]
  | cons op ops ih =>
    cases op with
    | write d =>
      have htw : (totalWritten (ROp.write d :: ops) : Int)
          = (d.length : Int) + (totalWritten ops : Int) := by
        simp [totalWritten]
      have hlen : ((br.buffer ++ d).length : Int) < br.bufferSize := by
        have h0 : (0 : Int) ≤ (totalWritten ops : Int) := Int.ofNat_nonneg _
        rw [htw] at hsize
        simp only [List.length_append]
        push_cast
        omega
      have hstep := bufferedResponse_write_buffers br d hsent hL hlen
      have hrec := ih { br with buffer := br.buffer ++ d } hsent hL
        (by
          rw [htw] at hsize
          simp only [List.length_append]
          push_cast
          omega)
      simp only [bufferedResponse.runOps, hstep, hrec, List.nil_append]
      simp [lastStatusRecorded, writtenBytes, List.append_assoc]
    | writeHeader c =>
      have hrec := ih { br with statusCode := c } hsent hL hsize
      simp only [bufferedResponse.runOps, bufferedResponse.writeHeader, hrec]
      simp [lastStatusRecorded, writtenBytes]

/-- C3 (amended: strict inequality): while the total body size stays strictly
below a positive soft limit, nothing reaches the upstream before `flush`, and
the status `flush` then delivers is the one recorded by `WriteHeader` (or the
implicit 200 when none was recorded). -/
theorem bufferedResponse_status_held_until_flush (L : Int) (ops : List ROp)
    (hL : 0 < L) (hsize : (totalWritten ops : Int) < L) :
    (bufferedResponse.runOps (initBuffered L) ops).2 = []
    ∧ deliveredStatus ((bufferedResponse.runOps (initBuffered L) ops).2
        ++ ((bufferedResponse.runOps (initBuffered L) ops).1.flush).2)
      = (if lastStatusRecorded 0 ops = 0 then 200
         else lastStatusRecorded 0 ops) := by
  have h := runOps_buffering (initBuffered L) ops rfl hL
    (by simpa [initBuffered] using hsize)
  rw [h]
  refine ⟨rfl, ?_⟩
  by_cases hz : lastStatusRecorded 0 ops = 0
  · by_cases hb : writtenBytes ops = []
    · simp [bufferedResponse.flush, initBuffered, hz, hb, deliveredStatus]
    · simp [bufferedResponse.flush, initBuffered, hz, hb, deliveredStatus]
  · by_cases hb : writtenBytes ops = []
    · simp [bufferedResponse.flush, initBuffered, hz, hb, deliveredStatus]
    · simp [bufferedResponse.flush, initBuffered, hz, hb, deliveredStatus]

/-- C3 witness: three body bytes under an 8192-byte limit, then a recorded
502: nothing is emitted before flush and the flush delivers 502. -/
theorem bufferedResponse_status_held_until_flush_witness :
    (0 : Int) < 8192
    ∧ (totalWritten [ROp.write [1, 2, 3], ROp.writeHeader 502] : Int) < 8192
    ∧ (bufferedResponse.runOps (initBuffered 8192)
        [ROp.write [1, 2, 3], ROp.writeHeader 502]).2 = []
    ∧ deliveredStatus ((bufferedResponse.runOps (initBuffered 8192)
          [ROp.write [1, 2, 3], ROp.writeHeader 502]).2
        ++ ((bufferedResponse.runOps (initBuffered 8192)
          [ROp.write [1, 2, 3], ROp.writeHeader 502]).1.flush).2)
      = (if lastStatusRecorded 0 [ROp.write [1, 2, 3], ROp.writeHeader 502] = 0
         then 200
         else lastStatusRecorded 0 [ROp.write [1, 2, 3], ROp.writeHeader 502]) := by
  have h := bufferedResponse_status_held_until_flush 8192
    [ROp.write [1, 2, 3], ROp.writeHeader 502] (by decide) (by decide)
  exact ⟨by decide, by decide, h.1, h.2⟩

/-- C3 counterexample to the claim as stated ("at most the soft limit"): with
soft limit 1, a single body byte reaches the limit exactly, so the write
itself flushes — the byte goes upstream before any explicit flush and the
committed status is 200, not the 502 recorded afterwards. -/
theorem bufferedResponse_soft_limit_boundary_flushes :
    (0 : Int) < 1
    ∧ (totalWritten [ROp.write [7], ROp.writeHeader 502] : Int) ≤ 1
    ∧ (bufferedResponse.runOps (initBuffered 1)
        [ROp.write [7], ROp.writeHeader 502]).2 = [UpEvent.chunk [7]]
    ∧ lastStatusRecorded 0 [ROp.write [7], ROp.writeHeader 502] = 502
    ∧ deliveredStatus ((bufferedResponse.runOps (initBuffered 1)
          [ROp.write [7], ROp.writeHeader 502]).2
        ++ ((bufferedResponse.runOps (initBuffered 1)
          [ROp.write [7], ROp.writeHeader 502]).1.flush).2)
      = 200 := by
  decide

theorem processLoop_length_le (env : AsyncEnv) (fuel i : Nat) :
    (processLoop env fuel i).length ≤ fuel := by
  induction fuel generalizing i with
  | zero => simp [processLoop]
  | succ n ih =>
    by_cases h1 : processRequestAsyncAttempt env i
    · simp [processLoop, h1]
    · by_cases h2 : i < env.Retries
      · by_cases h3 : env.cancelledAt i
        · simp [processLoop, h1, h2, h3]
        · simpa [processLoop, h1, h2, h3] using ih (i + 1)
      · simp [processLoop, h1, h2]

theorem processLoop_mem_ge (env : AsyncEnv) (fuel i j : Nat)
    (h : j ∈ processLoop env fuel i) : i ≤ j := by
  induction fuel generalizing i with
  | zero => simp [processLoop] at h
  | succ n ih =>
    by_cases h1 : processRequestAsyncAttempt env i
    · simp [processLoop, h1] at h
      omega
    · by_cases h2 : i < env.Retries
      · by_cases h3 : env.cancelledAt i
        · simp [processLoop, h1, h2, h3] at h
          omega
        · simp [processLoop, h1, h2, h3] at h
          rcases h with rfl | h
          · omega
          · have := ih (i + 1) h
            omega
      · simp [processLoop, h1, h2] at h
        omega

theorem processLoop_stops_at_success (env : AsyncEnv) (fuel s : Nat) :
    ∀ i ∈ processLoop env fuel s, processRequestAsyncAttempt env i = true →
      ∀ j ∈ processLoop env fuel s, j ≤ i := by
  induction fuel generalizing s with
  | zero =>
    intro i hi
    simp [processLoop] at hi
  | succ n ih =>
    intro i hi hok j hj
    by_cases h1 : processRequestAsyncAttempt env s
    · simp [processLoop, h1] at hi hj
      omega
    · by_cases h2 : s < env.Retries
      · by_cases h3 : env.cancelledAt s
        · simp [processLoop, h1, h2, h3] at hi hj
          omega
        · simp [processLoop, h1, h2, h3] at hi hj
          rcases hi with rfl | hi
          · exact absurd hok h1
          · rcases hj with rfl | hj
            · have := processLoop_mem_ge env n (j + 1) i hi
              omega
            · exact ih (s + 1) i hi hok j hj
      · simp [processLoop, h1, h2] at hi hj
        subst hi
        exact absurd hok h1

/-- C5: for a manifest with `Retries = r`, the worker performs at most `r + 1`
attempts on a spooled request (exactly one when `r = 0`); the replayed request
of attempt `i` carries `X-Attempt: i + 1` (1-based); and no attempt is
performed after one whose discarding sink recorded status 0 or 2xx. -/
theorem processRequestAsync_attempt_discipline (env : AsyncEnv) :
    (processRequestAsync env).length ≤ env.Retries + 1
    ∧ (env.Retries = 0 → processRequestAsync env = [0])
    ∧ (∀ i ∈ processRequestAsync env,
        headerGet (attemptHeaders env i) "X-Attempt" = some (toString (i + 1)))
    ∧ (∀ i ∈ processRequestAsync env, processRequestAsyncAttempt env i = true →
        ∀ j ∈ processRequestAsync env, j ≤ i) := by
  refine ⟨processLoop_length_le env (env.Retries + 1) 0, ?_, ?_, ?_⟩
  · intro h0
    by_cases h1 : processRequestAsyncAttempt env 0 <;>
      simp [processRequestAsync, processLoop, h0, h1]
  · intro i _
    unfold attemptHeaders
    exact headerGet_headerSet env.baseHeaders "X-Attempt" (toString (i + 1))
  · intro i hi hok j hj
    exact processLoop_stops_at_success env (env.Retries + 1) 0 i hi hok j hj

/-- C5 witness: with `Retries = 0` exactly one attempt happens, and its
replayed request carries `X-Attempt: 1`. -/
theorem processRequestAsync_attempt_discipline_witness :
    (⟨0, [], fun _ => true, fun _ => 204, fun _ => false⟩ : AsyncEnv).Retries = 0
    ∧ processRequestAsync (⟨0, [], fun _ => true, fun _ => 204, fun _ => false⟩ : AsyncEnv)
        = [0]
    ∧ headerGet
        (attemptHeaders (⟨0, [], fun _ => true, fun _ => 204, fun _ => false⟩ : AsyncEnv) 0)
        "X-Attempt" = some "1" :=
  ⟨rfl,
    (processRequestAsync_attempt_discipline
      (⟨0, [], fun _ => true, fun _ => 204, fun _ => false⟩ : AsyncEnv)).2.1 rfl,
    by decide⟩

/-- C2 (amended): once the spooled file opens, the worker closes and deletes
it after processing on every path — success, retry exhaustion, or
cancellation during a retry wait; but when every open attempt fails (the
unprocessable case) the worker only logs and moves on, and the file is *not*
deleted. -/
theorem runPoppedItem_cleanup (env : WorkerEnv) :
    (openStoredRequestFile env.openOk env.proc.Retries = none →
      runPoppedItem env = [WorkerEffect.loggedUnprocessable])
    ∧ (openStoredRequestFile env.openOk env.proc.Retries ≠ none →
      ∃ pre, runPoppedItem env
        = pre ++ [WorkerEffect.fileClosed, WorkerEffect.fileDeleted]) := by
  cases h : openStoredRequestFile env.openOk env.proc.Retries with
  | none =>
    refine ⟨fun _ => by simp [runPoppedItem, h], fun hne => absurd rfl hne⟩
  | some k =>
    refine ⟨fun hc => ?_, fun _ => ?_⟩
    · exact Option.noConfusion hc
    · exact ⟨(processRequestAsync env.proc).map WorkerEffect.attempted,
        by simp [runPoppedItem, h]⟩

/-- C2 witness: the file opens on the second open attempt, every execution
attempt fails (exhaustion), and the effects still end with close and delete. -/
theorem runPoppedItem_cleanup_witness :
    openStoredRequestFile (fun i => i == 1) 1 ≠ none
    ∧ ∃ pre,
        runPoppedItem
          ⟨⟨1, [], fun _ => true, fun _ => 500, fun _ => false⟩, fun i => i == 1⟩
          = pre ++ [WorkerEffect.fileClosed, WorkerEffect.fileDeleted] :=
  ⟨by decide,
    (runPoppedItem_cleanup
      ⟨⟨1, [], fun _ => true, fun _ => 500, fun _ => false⟩, fun i => i == 1⟩).2
      (by decide)⟩

/-- C2 counterexample to the claim as stated: when the stored file never
opens (`openOk` always false), the worker logs the item as unprocessable and
continues — no delete effect occurs, so the spooled file is leaked on this
exit path. -/
theorem runPoppedItem_unprocessable_not_deleted :
    openStoredRequestFile (fun _ => false) 1 = none
    ∧ WorkerEffect.fileDeleted ∉
        runPoppedItem
          ⟨⟨1, [], fun _ => true, fun _ => 0, fun _ => false⟩, fun _ => false⟩ := by
  exact ⟨by decide, by decide⟩

theorem readAttrs_cons_step (a : String × Option String)
    (rest : List (String × Option String)) (m : Manifest) :
    (attrFailure a = true →
      (readAttrs (a :: rest) m).1 = m ∧ (readAttrs (a :: rest) m).2 ≠ none)
    ∧ (attrFailure a = false →
      readAttrs (a :: rest) m = readAttrs rest (applyAttr m a)) := by
  obtain ⟨name, data?⟩ := a
  have dTA : AttrTimeout ≠ AttrAsync := by decide
  have dDA : AttrDelay ≠ AttrAsync := by decide
  have dDT : AttrDelay ≠ AttrTimeout := by decide
  have dRA : AttrRetries ≠ AttrAsync := by decide
  have dRT : AttrRetries ≠ AttrTimeout := by decide
  have dRD : AttrRetries ≠ AttrDelay := by decide
  by_cases h1 : name = AttrAsync
  · cases data? with
    | none => simp [readAttrs, attrFailure, applyAttr, h1]
    | some d =>
      cases hp : parseAsyncMode d with
      | none => simp [readAttrs, attrFailure, applyAttr, h1, hp]
      | some mode => simp [readAttrs, attrFailure, applyAttr, h1, hp]
  · by_cases h2 : name = AttrTimeout
    · cases data? with
      | none => simp [readAttrs, attrFailure, applyAttr, h2, dTA]
      | some d =>
        cases hp : parseDuration d with
        | none => simp [readAttrs, attrFailure, applyAttr, h2, dTA, hp]
        | some v => simp [readAttrs, attrFailure, applyAttr, h2, dTA, hp]
    · by_cases h3 : name = AttrDelay
      · cases data? with
        | none => simp [readAttrs, attrFailure, applyAttr, h3, dDA, dDT]
        | some d =>
          cases hp : parseDuration d with
          | none => simp [readAttrs, attrFailure, applyAttr, h3, dDA, dDT, hp]
          | some v => simp [readAttrs, attrFailure, applyAttr, h3, dDA, dDT, hp]
      · by_cases h4 : name = AttrRetries
        · cases data? with
          | none => simp [readAttrs, attrFailure, applyAttr, h4, dRA, dRT, dRD]
          | some d =>
            cases hp : parseUintDec d with
            | none => simp [readAttrs, attrFailure, applyAttr, h4, dRA, dRT, dRD, hp]
            | some v => simp [readAttrs, attrFailure, applyAttr, h4, dRA, dRT, dRD, hp]
        · simp [readAttrs, attrFailure, applyAttr, h1, h2, h3, h4]

/-- C6 (amended): `readAttrs` applies recognized attributes in order and
*stops at the first* unreadable or unparseable one, returning an error — the
manifest keeps the overrides merged before that point and the failing and all
later attributes are skipped (it does not skip just the failing one); with no
failing attribute it merges everything, exactly like the spec's skip
semantics. The spec-modelled caller `mergeFileAttrs` logs and proceeds with
the partially merged manifest, so the request is never failed by an
unparseable attribute. -/
theorem readAttrs_stops_at_first_failure (attrs : List (String × Option String))
    (base : Manifest) :
    (readAttrs attrs base).1
        = readAttrsSpec (attrs.takeWhile (fun a => !attrFailure a)) base
    ∧ ((readAttrs attrs base).2 = none ↔ attrs.all (fun a => !attrFailure a) = true)
    ∧ mergeFileAttrs attrs base = (readAttrs attrs base).1 := by
  refine ⟨?_, ?_, rfl⟩
  · induction attrs generalizing base with
    | nil => simp [readAttrs, readAttrsSpec]
    | cons a rest ih =>
      by_cases hf : attrFailure a
      · rw [((readAttrs_cons_step a rest base).1 hf).1]
        simp [List.takeWhile_cons, hf, readAttrsSpec]
      · rw [(readAttrs_cons_step a rest base).2 (by simpa using hf)]
        simp only [List.takeWhile_cons, hf]
        simpa [readAttrsSpec] using ih (applyAttr base a)
  · induction attrs generalizing base with
    | nil => simp [readAttrs]
    | cons a rest ih =>
      by_cases hf : attrFailure a
      · have hstep := (readAttrs_cons_step a rest base).1 hf
        simp only [List.all_cons, hf]
        constructor
        · intro hcontra
          exact absurd hcontra hstep.2
        · intro hcontra
          simp at hcontra
      · rw [(readAttrs_cons_step a rest base).2 (by simpa using hf)]
        simp only [List.all_cons, hf]
        simpa using ih (applyAttr base a)

/-- C6 counterexample to the claim as stated: with an unparseable `delay`
attribute followed by a parseable `retries = 5`, per-attribute skipping (the
spec semantics) would still apply `retries = 5`, but the source's `readAttrs`
aborts at the bad attribute and leaves `Retries` at its base value — the later
attribute is dropped, not just the failing one. -/
theorem readAttrs_does_not_skip_just_the_bad_attr :
    attrFailure (AttrDelay, some "soon") = true
    ∧ (readAttrsSpec [(AttrDelay, some "soon"), (AttrRetries, some "5")]
        ⟨[], .auto, 0, 0, 0⟩).Retries = 5
    ∧ (mergeFileAttrs [(AttrDelay, some "soon"), (AttrRetries, some "5")]
        ⟨[], .auto, 0, 0, 0⟩).Retries = 0
    ∧ mergeFileAttrs [(AttrDelay, some "soon"), (AttrRetries, some "5")]
        ⟨[], .auto, 0, 0, 0⟩
      ≠ readAttrsSpec [(AttrDelay, some "soon"), (AttrRetries, some "5")]
        ⟨[], .auto, 0, 0, 0⟩ := by
  refine ⟨by decide, by decide, by decide, by decide⟩
